import Mathlib

/-!
Verification of the document-to-report synthesis pipeline of
`src/py/ai/fininsightgpt/src/report_generator.py`.

Texts are modelled as `List Char`. The Python functions are shallowly
embedded as executable Lean functions; regular-expression scanning is
embedded character by character, following Python's leftmost-match
backtracking semantics for the two concrete patterns the module uses.
Scanning loops carry explicit fuel; the wrappers always supply fuel larger
than the text length, so the fuel never runs out (the sufficiency lemmas
below make this precise).
-/

namespace ReportGen

/-- Characters counted as whitespace by Python's default `str.strip()` and by
the regex class `\s` (the ASCII range; the corpora in scope are ASCII). -/
def isWs (c : Char) : Bool :=
  c == ' ' || c == '\t' || c == '\n' || c == '\r' || c == '\x0b' || c == '\x0c'

/-- Character-list view of a string literal, the text representation used
throughout this development. -/
def str2list (s : String) : List Char := s.data

/-- Number of leading characters of `s` satisfying `p`. -/
def leadingCount (p : Char → Bool) (s : List Char) : Nat := (s.takeWhile p).length

/-- Drop trailing newline characters (used by the backtracking case of the
`\s+[^\n]+` matcher). -/
def dropTrailNl (s : List Char) : List Char :=
  (s.reverse.dropWhile (fun c => c == '\n')).reverse

/-- Python `str.lstrip()`: drop leading whitespace. -/
def lstrip (s : List Char) : List Char := s.dropWhile isWs

/-- Python `str.rstrip()`: drop trailing whitespace. -/
def rstrip (s : List Char) : List Char := (s.reverse.dropWhile isWs).reverse

/-- Python `str.strip()`: drop whitespace at both ends. -/
def pyStrip (s : List Char) : List Char := lstrip (rstrip s)

/-- report_generator.py lines 150–169, `count_tokens`: the length-based
fallback estimator `len(text) // 4` (the branch taken when the external
`tiktoken` package is unavailable or raises; the subword path is an external
dependency outside this repository). Python `//` on non-negative ints is
`Nat` division. -/
def count_tokens (text : List Char) : Nat := text.length / 4

/-- The two-character paragraph separator `"\n\n"`. -/
def nl2 : List Char := ['\n', '\n']

/-- Index of the first occurrence of `sep` as a contiguous sublist of `s`,
mirroring Python `str.find`. -/
def findSub (sep : List Char) : List Char → Option Nat
  | [] => if sep.isPrefixOf ([] : List Char) then some 0 else none
  | c :: t =>
    if sep.isPrefixOf (c :: t) then some 0 else (findSub sep t).map (fun i => i + 1)

/-- Python `str.split(sep)` on character lists, with fuel (`sep` is the
constant `"\n\n"` at every use site, so each step consumes at least one
character and the wrapper's fuel suffices). -/
def pySplitOnGo (sep : List Char) : Nat → List Char → List (List Char)
  | 0, s => [s]
  | fuel + 1, s =>
    match findSub sep s with
    | none => [s]
    | some i => s.take i :: pySplitOnGo sep fuel (s.drop (i + sep.length))

/-- Python `str.split(sep)`. -/
def pySplitOn (sep s : List Char) : List (List Char) := pySplitOnGo sep (s.length + 1) s

/-- Matcher for the tail `\s+[^\n]+` of the section pattern of `chunk_text`,
with Python's greedy backtracking: `\s+` first takes the maximal whitespace
run; if that leaves no character for `[^\n]+`, the engine gives characters
back until `[^\n]+` can take one non-newline character. Returns how many
characters the tail consumes. -/
def chunkWsTail (s : List Char) : Option Nat :=
  let k := leadingCount isWs s
  if k = 0 then none
  else if s.drop k ≠ [] then some (k + leadingCount (fun c => c != '\n') (s.drop k))
  else
    let t := dropTrailNl s
    if 2 ≤ t.length then some t.length else none

/-- Matcher for `#{2,3}\s+[^\n]+` at the head of `s`: with greedy hashes and
backtracking, a match requires exactly two or three markers followed by
whitespace. Returns the consumed length. -/
def chunkHashTail (s : List Char) : Option Nat :=
  let m := leadingCount (fun c => c == '#') s
  if m = 2 ∨ m = 3 then (chunkWsTail (s.drop m)).map (fun n => m + n) else none

/-- The consumed-`\n` alternative of the separator's `(?:^|\n)` lead. -/
def chunkNlSep (s : List Char) : Option Nat :=
  match s with
  | [] => none
  | c :: t => if c = '\n' then (chunkHashTail t).map (fun n => n + 1) else none

/-- Leftmost-match attempt of the separator `(?:^|\n)#{2,3}\s+[^\n]+` of
`chunk_text` (line 183) at the current scan position; `atStart` records
whether this is position 0 of the whole text, the only place the non-MULTILINE
`^` can match. The alternation tries `^` first, then a consumed `\n`. -/
def chunkSep (atStart : Bool) (s : List Char) : Option Nat :=
  match (if atStart then chunkHashTail s else none) with
  | some n => some n
  | none => chunkNlSep s

/-- Scanner for `re.split` with the section pattern (line 184): walk the text
one position at a time, emitting the text between matches and each matched
separator itself, exactly as `re.split` with a capturing group interleaves
them. -/
def reSplitGo : Nat → Bool → List Char → List Char → List (List Char)
  | 0, _, _, acc => [acc.reverse]
  | fuel + 1, atStart, s, acc =>
    match chunkSep atStart s with
    | some n => acc.reverse :: s.take n :: reSplitGo fuel false (s.drop n) []
    | none =>
      match s with
      | [] => [acc.reverse]
      | c :: t => reSplitGo fuel false t (c :: acc)

/-- The parts list `re.split(section_pattern, text)` of `chunk_text`. -/
def reSplitSections (s : List Char) : List (List Char) := reSplitGo (s.length + 1) true s []

/-- One step of the greedy section-accumulation loop of `chunk_text` (lines
190–199): the state is (finished chunks, current chunk); flush when adding
the next part would exceed the budget and the current chunk is non-empty. -/
def chunkStep (maxTokens : Nat) (st : List (List Char) × List Char) (sec : List Char) :
    List (List Char) × List Char :=
  if maxTokens < count_tokens (st.2 ++ sec) ∧ st.2 ≠ [] then (st.1 ++ [st.2], sec)
  else (st.1, st.2 ++ sec)

/-- First pass of `chunk_text` (lines 182–203): split on the section pattern
and regroup greedily, keeping the final chunk when non-empty. -/
def chunk_text_pass1 (text : List Char) (maxTokens : Nat) : List (List Char) :=
  let st := (reSplitSections text).foldl (chunkStep maxTokens) ([], [])
  if st.2 ≠ [] then st.1 ++ [st.2] else st.1

/-- One step of the paragraph regrouping loop (lines 212–217): every
paragraph is re-appended with a trailing blank line. -/
def paraStep (maxTokens : Nat) (st : List (List Char) × List Char) (para : List Char) :
    List (List Char) × List Char :=
  if maxTokens < count_tokens (st.2 ++ (para ++ nl2)) ∧ st.2 ≠ [] then
    (st.1 ++ [st.2], para ++ nl2)
  else (st.1, st.2 ++ (para ++ nl2))

/-- Second pass of `chunk_text` on one oversized chunk (lines 207–220):
split on blank lines and regroup paragraphs greedily. -/
def chunk_text_pass2 (maxTokens : Nat) (c : List Char) : List (List Char) :=
  let st := (pySplitOn nl2 c).foldl (paraStep maxTokens) ([], [])
  if st.2 ≠ [] then st.1 ++ [st.2] else st.1

/-- report_generator.py lines 172–227, `chunk_text` with the length-based
token estimator: first pass over section boundaries, then a paragraph-level
second pass for any chunk still over the budget. -/
def chunk_text (text : List Char) (maxTokens : Nat) : List (List Char) :=
  (chunk_text_pass1 text maxTokens).flatMap
    (fun c => if maxTokens < count_tokens c then chunk_text_pass2 maxTokens c else [c])

/-- Matcher for the tail `\s+(.+?)(\n|$)` of the heading pattern of
`extract_semantic_sections`, with MULTILINE `$` and Python backtracking:
greedy `\s+` takes the maximal whitespace run; the lazy `(.+?)` then takes the
following non-newline run up to the first newline or the end; when the
whitespace run reaches the end of the string the engine backs off so that
`(.+?)` can take one whitespace character. Returns (consumed length, the
title capture, the `(\n|$)` capture). -/
def xTitleTail (s : List Char) : Option (Nat × List Char × List Char) :=
  let k := leadingCount isWs s
  if k = 0 then none
  else
    let after := s.drop k
    if after ≠ [] then
      let run := leadingCount (fun c => c != '\n') after
      match after.drop run with
      | '\n' :: _ => some (k + run + 1, after.take run, ['\n'])
      | _ => some (k + run, after.take run, [])
    else
      let t := dropTrailNl s
      if 2 ≤ t.length then
        if t.length < k then some (t.length + 1, t.drop (t.length - 1), ['\n'])
        else some (t.length, t.drop (t.length - 1), [])
      else none

/-- Matcher for `#{1,3}\s+(.+?)(\n|$)` at the head of `s`: greedy hashes with
backtracking admit one to three markers followed by whitespace. -/
def xHashTail (s : List Char) : Option (Nat × List Char × List Char) :=
  let m := leadingCount (fun c => c == '#') s
  if 1 ≤ m ∧ m ≤ 3 then (xTitleTail (s.drop m)).map (fun r => (m + r.1, r.2.1, r.2.2))
  else none

/-- The consumed-`\n` alternative of the heading pattern's `(^|\n)` lead. -/
def xNlSep (s : List Char) : Option (Nat × List Char × List Char) :=
  match s with
  | [] => none
  | c :: t =>
    if c = '\n' then (xHashTail t).map (fun r => (r.1 + 1, r.2.1, r.2.2)) else none

/-- Leftmost-match attempt of the heading pattern `(^|\n)#{1,3}\s+(.+?)(\n|$)`
(line 640, compiled with `re.MULTILINE`) at the current position; `ls` records
whether the position is a line start, where the MULTILINE `^` matches without
consuming. The alternation tries `^` first, then a consumed `\n`. -/
def xSep (ls : Bool) (s : List Char) : Option (Nat × List Char × List Char) :=
  match (if ls then xHashTail s else none) with
  | some r => some r
  | none => xNlSep s

/-- Scanner collecting, in order, the (title, `(\n|$)` capture) pair of every
match of the heading pattern — exactly the `parts[i+2]`, `parts[i+3]` pairs
the loop of `extract_semantic_sections` (lines 647–655) reads from the
`re.split` parts list, whose stride-4 indexing selects the second and third
capture groups of each match. -/
def extractScanGo : Nat → Bool → List Char → List (List Char × List Char)
  | 0, _, _ => []
  | fuel + 1, ls, s =>
    match xSep ls s with
    | some (n, t, g) => (t, g) :: extractScanGo fuel (g == ['\n']) (s.drop n)
    | none =>
      match s with
      | [] => []
      | c :: rest => extractScanGo fuel (c == '\n') rest

/-- The matches of the heading pattern over a whole corpus. -/
def extractPairs (s : List Char) : List (List Char × List Char) :=
  extractScanGo (s.length + 1) true s

/-- Python `str.lower()` on the ASCII range. -/
def pyLower (s : List Char) : List Char := s.map Char.toLower

/-- Insertion into the insertion-ordered dictionary of
`extract_semantic_sections`: a fresh key is appended; an existing key has
`"\n\n" + v` appended to its value (lines 652–655). -/
def dictInsert (m : List (List Char × List Char)) (k v : List Char) :
    List (List Char × List Char) :=
  if m.any (fun kv => kv.1 == k) then
    m.map (fun kv => if kv.1 = k then (kv.1, kv.2 ++ nl2 ++ v) else kv)
  else m ++ [(k, v)]

/-- report_generator.py lines 630–657, `extract_semantic_sections`: split on
the heading pattern and fold the stride-4 loop. The stored key is
`parts[i+2].strip().lower()` and the stored value is `parts[i+3]` — the
`(\n|$)` capture group, as the source's indexing actually selects it. -/
def extract_semantic_sections (content : List Char) : List (List Char × List Char) :=
  (extractPairs content).foldl
    (fun m p => dictInsert m (pyLower (pyStrip p.1)) p.2) []

/-- Re-serialization of an extracted mapping for the idempotence claim: every
(title, body) pair re-wrapped under its own level-2 heading, concatenated in
order. -/
def reserializeSections (m : List (List Char × List Char)) : List Char :=
  (m.map (fun kv => str2list "## " ++ kv.1 ++ ['\n'] ++ kv.2)).foldr
    (fun a b => a ++ b) []

/-- Python `str.title()` on the ASCII range: an alphabetic character is
uppercased after a non-alphabetic character and lowercased after an
alphabetic one. -/
def pyTitleGo : Bool → List Char → List Char
  | _, [] => []
  | prevAlpha, c :: t =>
    if c.isAlpha then
      (if prevAlpha then Char.toLower c else Char.toUpper c) :: pyTitleGo true t
    else c :: pyTitleGo false t

/-- Python `str.title()`. -/
def pyTitle (s : List Char) : List Char := pyTitleGo false s

/-- The keyword test of `extract_content_for_section` (line 673): some
keyword, lowercased, is a substring of the lowercased section title. -/
def titleMatch (keywords : List (List Char)) (title : List Char) : Bool :=
  keywords.any (fun kw => (findSub (pyLower kw) (pyLower title)).isSome)

/-- The per-section label `f"# {title.title()}\n\n{content}"` (lines 674,
678). -/
def secLabel (kv : List Char × List Char) : List Char :=
  str2list "# " ++ pyTitle kv.1 ++ nl2 ++ kv.2

/-- Python `sep.join(items)`. -/
def joinSep (sep : List Char) : List (List Char) → List Char
  | [] => []
  | [x] => x
  | x :: y :: xs => x ++ sep ++ joinSep sep (y :: xs)

/-- report_generator.py lines 660–681, `extract_content_for_section`: label
every section whose title matches a keyword and join them; with no match,
fall back to the first 8000 characters of the concatenation of all labeled
sections. -/
def extract_content_for_section (sections : List (List Char × List Char))
    (keywords : List (List Char)) : List Char :=
  let relevant := (sections.filter (fun kv => titleMatch keywords kv.1)).map secLabel
  if relevant.isEmpty then (joinSep nl2 (sections.map secLabel)).take 8000
  else joinSep nl2 relevant

/-- Boolean prefix test on character lists (Python `str.startswith`). -/
def listStartsWith : List Char → List Char → Bool
  | [], _ => true
  | _ :: _, [] => false
  | p :: ps, c :: cs => p == c && listStartsWith ps cs

/-- The heading marker run `"#" * level`. -/
def sectionMarks (level : Nat) : List Char := List.replicate level '#'

/-- The guard `re.match(r'^#{1,6}\s+', s)` (line 706): with greedy hashes and
backtracking, a match requires the leading marker run to have length one to
six and to be followed by a whitespace character. -/
def headGuard (s : List Char) : Bool :=
  let k := leadingCount (fun c => c == '#') s
  decide (1 ≤ k ∧ k ≤ 6) &&
    (match s.drop k with
     | c :: _ => isWs c
     | [] => false)

/-- Drop one leading newline when present. -/
def dropFirstNl : List Char → List Char
  | '\n' :: t => t
  | t => t

/-- The substitution `re.sub(r'^#{1,6}\s+.*?(\n|$)', marks + " " + heading +
"\n", s, count=1)` of line 708, under the guard that `s` begins with a
heading: the match consumes the marker run, the maximal (possibly
newline-spanning) whitespace run after it, the remainder of that line, and
the line's newline when present. -/
def replaceFirstHeading (marksStr heading s : List Char) : List Char :=
  let k := leadingCount (fun c => c == '#') s
  let r1 := s.drop k
  let r2 := r1.drop (leadingCount isWs r1)
  marksStr ++ [' '] ++ heading ++ ['\n'] ++ dropFirstNl (r2.dropWhile (fun c => c != '\n'))

/-- The five-way `startswith` disjunction of lines 698–702: the expected
heading prefix, or one of the four hard-coded alternates. -/
def startsCanon (s heading : List Char) (level : Nat) : Bool :=
  let hp := sectionMarks level
  listStartsWith (hp ++ [' '] ++ heading) s
    || listStartsWith (hp ++ [' '] ++ str2list "Executive Summary") s
    || listStartsWith (hp ++ [' '] ++ str2list "Business Overview") s
    || listStartsWith (hp ++ str2list "Executive Summary") s
    || listStartsWith (hp ++ str2list "Business Overview") s

/-- Body of `ensure_section_heading` applied to the stripped content: keep it
when it starts with the expected heading prefix or an alternate; else replace
a leading heading line; else prepend the canonical heading and a blank
line. -/
def ensureCore (s heading : List Char) (level : Nat) : List Char :=
  if startsCanon s heading level then s
  else if headGuard s then replaceFirstHeading (sectionMarks level) heading s
  else sectionMarks level ++ [' '] ++ heading ++ nl2 ++ s

/-- report_generator.py lines 684–711, `ensure_section_heading` (every branch
of the source reads `content.strip()`, factored here as `ensureCore` over the
stripped content). -/
def ensure_section_heading (content heading : List Char) (level : Nat) : List Char :=
  ensureCore (pyStrip content) heading level

/-- The failure placeholder stored by each per-phase `except` block of
`generate_report` (for example line 452): the phase's level-2 heading
followed by the embedded error message. -/
def phasePlaceholder (h e : List Char) : List Char :=
  str2list "## " ++ h ++ str2list "\n\nError generating content: " ++ e

/-- A phase's stored component: the inference result on success, the error
placeholder on failure. The inference call itself is an external collaborator
and enters the model as an `Except` value. -/
def phaseComponent (h : List Char) : Except (List Char) (List Char) → List Char
  | Except.ok c => c
  | Except.error e => phasePlaceholder h e

/-- The assembly guard `if report_components[...]:` followed by
`ensure_section_heading(..., h, 1)` (lines 589–608): a falsy (empty)
component contributes nothing. -/
def maybeSection (c h : List Char) : List (List Char) :=
  if c = [] then [] else [ensure_section_heading c h 1]

/-- Python `str.upper()` on the ASCII range. -/
def pyUpper (s : List Char) : List Char := s.map Char.toUpper

/-- The pure assembly core of `generate_report` (lines 580–621): the seven
phase results — each either generated text or an error, exactly one per
phase, in declared order — are rendered to components, heading-normalized,
and joined with blank lines between header, sections and metadata footer.
The growth phase's placeholder heading is "Growth Prospects" while its
canonical assembly heading is "Growth Prospects and Future Outlook", as in
the source. -/
def generate_report_core (company dt masterName modelName : List Char)
    (rES rBO rFA rCL rGP rRC rCO : Except (List Char) (List Char)) : List Char :=
  joinSep nl2
    ([str2list "# Equity Research Report: " ++ pyUpper company,
      str2list "Generated on: " ++ dt,
      str2list "Based on data from: " ++ masterName,
      str2list "\n---\n"]
     ++ maybeSection (phaseComponent (str2list "Executive Summary") rES)
         (str2list "Executive Summary")
     ++ maybeSection (phaseComponent (str2list "Business Overview") rBO)
         (str2list "Business Overview")
     ++ maybeSection (phaseComponent (str2list "Financial Analysis") rFA)
         (str2list "Financial Analysis")
     ++ maybeSection (phaseComponent (str2list "Competitive Landscape") rCL)
         (str2list "Competitive Landscape")
     ++ maybeSection (phaseComponent (str2list "Growth Prospects") rGP)
         (str2list "Growth Prospects and Future Outlook")
     ++ maybeSection (phaseComponent (str2list "Risks and Challenges") rRC)
         (str2list "Risks and Challenges")
     ++ maybeSection (phaseComponent (str2list "Conclusion") rCO)
         (str2list "Conclusion")
     ++ [str2list "\n---\n",
         str2list "## Report Metadata",
         str2list "- Company: " ++ company,
         str2list "- Generation Date: " ++ dt,
         str2list "- Master File: " ++ masterName,
         str2list "- LLM Model: " ++ modelName])

/-- Concatenation of a list of texts. -/
def listJoin : List (List Char) → List Char
  | [] => []
  | x :: xs => x ++ listJoin xs

/-- Scenario C of the spec: the Financial Analysis inference call fails with
message `e`, every other phase call succeeds with the given content. -/
def scenarioCReport (company dt masterName modelName cES cBO cCL cGP cRC cCO e : List Char) :
    List Char :=
  generate_report_core company dt masterName modelName (Except.ok cES) (Except.ok cBO)
    (Except.error e) (Except.ok cCL) (Except.ok cGP) (Except.ok cRC) (Except.ok cCO)

/-! Helper lemmas: concatenation facts about the scanners and folds. -/

theorem listJoin_append (L₁ L₂ : List (List Char)) :
    listJoin (L₁ ++ L₂) = listJoin L₁ ++ listJoin L₂ := by
  induction L₁ with
  | nil => rfl
  | cons x xs ih => simp [listJoin, ih]

theorem chunkWsTail_pos {s : List Char} {n : Nat} (h : chunkWsTail s = some n) : 1 ≤ n := by
  simp only [chunkWsTail] at h
  split_ifs at h with h1 h2 h3 <;> rw [Option.some.injEq] at h <;> omega

theorem chunkHashTail_pos {s : List Char} {n : Nat} (h : chunkHashTail s = some n) :
    1 ≤ n ∧ s ≠ [] := by
  simp only [chunkHashTail] at h
  split_ifs at h with h1
  cases hw : chunkWsTail (s.drop (leadingCount (fun c => c == '#') s)) with
  | none => rw [hw] at h; simp at h
  | some w =>
      rw [hw] at h
      simp only [Option.map_some', Option.some.injEq] at h
      refine ⟨?_, ?_⟩
      · have := chunkWsTail_pos hw
        omega
      · intro hs
        subst hs
        simp [leadingCount] at h1

theorem chunkSep_pos {b : Bool} {s : List Char} {n : Nat} (h : chunkSep b s = some n) :
    1 ≤ n ∧ s ≠ [] := by
  simp only [chunkSep] at h
  cases hh : (if b then chunkHashTail s else none) with
  | some m =>
      rw [hh] at h
      simp only [Option.some.injEq] at h
      subst h
      cases b with
      | true => exact chunkHashTail_pos (by simpa using hh)
      | false => simp at hh
  | none =>
      rw [hh] at h
      replace h : chunkNlSep s = some n := h
      cases s with
      | nil => simp [chunkNlSep] at h
      | cons c t =>
          simp only [chunkNlSep] at h
          split_ifs at h with hc
          cases hm : chunkHashTail t with
          | none => rw [hm] at h; simp at h
          | some w =>
              rw [hm] at h
              simp only [Option.map_some', Option.some.injEq] at h
              exact ⟨by omega, by simp⟩

theorem reSplitGo_join (fuel : Nat) :
    ∀ (b : Bool) (s acc : List Char), s.length < fuel →
      listJoin (reSplitGo fuel b s acc) = acc.reverse ++ s := by
  induction fuel with
  | zero => intro b s acc h; omega
  | succ f ih =>
      intro b s acc h
      simp only [reSplitGo]
      cases hsep : chunkSep b s with
      | some n =>
          obtain ⟨hn, hs⟩ := chunkSep_pos hsep
          have hlen : (s.drop n).length < f := by
            have h1 : (s.drop n).length = s.length - n := List.length_drop ..
            have h2 : 1 ≤ s.length := List.length_pos.mpr hs
            omega
          show listJoin (acc.reverse :: s.take n :: reSplitGo f false (s.drop n) []) =
            acc.reverse ++ s
          simp only [listJoin]
          rw [ih false (s.drop n) [] hlen]
          simp [List.take_append_drop]
      | none =>
          cases s with
          | nil => show listJoin [acc.reverse] = acc.reverse ++ []; simp [listJoin]
          | cons c t =>
              have hlen : t.length < f := by
                simp only [List.length_cons] at h
                omega
              show listJoin (reSplitGo f false t (c :: acc)) = acc.reverse ++ c :: t
              rw [ih false t (c :: acc) hlen]
              simp

theorem reSplitSections_join (s : List Char) : listJoin (reSplitSections s) = s := by
  simpa using reSplitGo_join (s.length + 1) true s [] (by omega)

theorem chunkFold_join (B : Nat) (secs : List (List Char)) :
    ∀ (res : List (List Char)) (cur : List Char),
      listJoin (secs.foldl (chunkStep B) (res, cur)).1 ++
          (secs.foldl (chunkStep B) (res, cur)).2 =
        listJoin res ++ cur ++ listJoin secs := by
  induction secs with
  | nil => intro res cur; simp [listJoin]
  | cons sec rest ih =>
      intro res cur
      rw [List.foldl_cons]
      simp only [chunkStep]
      split_ifs with hc
      · rw [ih]
        simp [listJoin, listJoin_append]
      · rw [ih]
        simp [listJoin]

theorem chunk_text_pass1_join (text : List Char) (B : Nat) :
    listJoin (chunk_text_pass1 text B) = text := by
  have h := chunkFold_join B (reSplitSections text) [] []
  rw [reSplitSections_join] at h
  simp only [listJoin, List.nil_append] at h
  simp only [chunk_text_pass1]
  split_ifs with hcur
  · rw [listJoin_append]
    simpa [listJoin] using h
  · simp only [ne_eq, not_not] at hcur
    rw [hcur] at h
    simpa using h

theorem findSub_decomp {sep : List Char} :
    ∀ {s : List Char} {i : Nat}, findSub sep s = some i →
      s = s.take i ++ sep ++ s.drop (i + sep.length) := by
  intro s
  induction s with
  | nil =>
      intro i h
      simp only [findSub] at h
      split_ifs at h with hp
      have : sep <+: ([] : List Char) := List.isPrefixOf_iff_prefix.mp hp
      have hsep : sep = [] := List.prefix_nil.mp this
      simp [hsep]
  | cons c t ih =>
      intro i h
      simp only [findSub] at h
      split_ifs at h with hp
      · simp only [Option.some.injEq] at h
        subst h
        have : sep <+: (c :: t) := List.isPrefixOf_iff_prefix.mp hp
        obtain ⟨u, hu⟩ := this
        simp only [List.take_zero, List.nil_append, Nat.zero_add]
        rw [← hu, List.drop_left]
      · cases hf : findSub sep t with
        | none => rw [hf] at h; simp at h
        | some j =>
            rw [hf] at h
            simp only [Option.map_some', Option.some.injEq] at h
            subst h
            have ht := ih hf
            calc c :: t = c :: (t.take j ++ sep ++ t.drop (j + sep.length)) := by rw [← ht]
              _ = (c :: t).take (j + 1) ++ sep ++ (c :: t).drop (j + 1 + sep.length) := by
                  have hx : j + 1 + sep.length = (j + sep.length) + 1 := by omega
                  rw [hx, List.take_succ_cons, List.drop_succ_cons]
                  simp

theorem findSub_nil_of_ne {sep : List Char} {i : Nat} (hsep : sep ≠ [])
    (h : findSub sep [] = some i) : False := by
  simp only [findSub] at h
  split_ifs at h with hp
  exact hsep (List.prefix_nil.mp (List.isPrefixOf_iff_prefix.mp hp))

theorem pySplitOnGo_join (fuel : Nat) :
    ∀ (s : List Char), s.length < fuel →
      listJoin ((pySplitOnGo nl2 fuel s).map (fun p => p ++ nl2)) = s ++ nl2 := by
  induction fuel with
  | zero => intro s h; omega
  | succ f ih =>
      intro s h
      rw [pySplitOnGo]
      cases hf : findSub nl2 s with
      | none => simp [listJoin]
      | some i =>
          have hs : s ≠ [] := by
            intro hnil
            subst hnil
            exact findSub_nil_of_ne (by simp [nl2]) hf
          have hdec := findSub_decomp hf
          have hlen : (s.drop (i + nl2.length)).length < f := by
            have h1 : (s.drop (i + nl2.length)).length = s.length - (i + nl2.length) :=
              List.length_drop ..
            have h2 : 1 ≤ s.length := List.length_pos.mpr hs
            simp only [nl2, List.length_cons, List.length_nil] at h1 ⊢
            omega
          simp only [List.map_cons, listJoin]
          rw [ih (s.drop (i + nl2.length)) hlen]
          conv_rhs => rw [hdec]
          simp

theorem pySplitOn_join_map (s : List Char) :
    listJoin ((pySplitOn nl2 s).map (fun p => p ++ nl2)) = s ++ nl2 :=
  pySplitOnGo_join (s.length + 1) s (by omega)

theorem paraFold_join (B : Nat) (paras : List (List Char)) :
    ∀ (res : List (List Char)) (cur : List Char),
      listJoin (paras.foldl (paraStep B) (res, cur)).1 ++
          (paras.foldl (paraStep B) (res, cur)).2 =
        listJoin res ++ cur ++ listJoin (paras.map (fun p => p ++ nl2)) := by
  induction paras with
  | nil => intro res cur; simp [listJoin]
  | cons p rest ih =>
      intro res cur
      rw [List.foldl_cons]
      simp only [paraStep]
      split_ifs with hc
      · rw [ih]
        simp [listJoin, listJoin_append]
      · rw [ih]
        simp [listJoin]

theorem chunk_text_pass2_join (B : Nat) (c : List Char) :
    listJoin (chunk_text_pass2 B c) = c ++ nl2 := by
  have h := paraFold_join B (pySplitOn nl2 c) [] []
  rw [pySplitOn_join_map] at h
  simp only [listJoin, List.nil_append] at h
  simp only [chunk_text_pass2]
  split_ifs with hcur
  · rw [listJoin_append]
    simpa [listJoin] using h
  · simp only [ne_eq, not_not] at hcur
    rw [hcur] at h
    simpa using h

theorem listJoin_flatMap (L : List (List Char)) (g : List Char → List (List Char)) :
    listJoin (L.flatMap g) = listJoin (L.map (fun c => listJoin (g c))) := by
  induction L with
  | nil => rfl
  | cons x xs ih => simp [listJoin, listJoin_append, ih]

/-- C1: for every text `T` and budget `B > 0`, `chunk_text` is lossless up to
inserted boundary whitespace. Precisely: the first-pass chunks concatenate to
`T` exactly, and the final chunks concatenate to the first-pass chunks with a
single blank line (`"\n\n"`) appended to each first-pass chunk that was over
budget (the paragraph pass re-emits every paragraph with a trailing blank
line) — so no character of `T` is dropped and the only change is inserted
`"\n\n"` boundary whitespace. -/
theorem chunk_text_lossless (T : List Char) (B : Nat) (_hB : 0 < B) :
    listJoin (chunk_text_pass1 T B) = T ∧
    listJoin (chunk_text T B) =
      listJoin ((chunk_text_pass1 T B).map
        (fun c => if B < count_tokens c then c ++ nl2 else c)) := by
  refine ⟨chunk_text_pass1_join T B, ?_⟩
  unfold chunk_text
  rw [listJoin_flatMap]
  congr 1
  apply List.map_congr_left
  intro c _
  by_cases hc : B < count_tokens c
  · simp [hc, chunk_text_pass2_join]
  · simp [hc, listJoin]

/-- Witness for C1 at the concrete text of Scenario B and budget 1. -/
theorem chunk_text_lossless_witness :
    0 < 1 ∧
      (listJoin (chunk_text_pass1 (str2list "aaaaaa\n\nbbbbbb") 1) =
          str2list "aaaaaa\n\nbbbbbb" ∧
        listJoin (chunk_text (str2list "aaaaaa\n\nbbbbbb") 1) =
          listJoin ((chunk_text_pass1 (str2list "aaaaaa\n\nbbbbbb") 1).map
            (fun c => if 1 < count_tokens c then c ++ nl2 else c))) :=
  ⟨by decide, chunk_text_lossless (str2list "aaaaaa\n\nbbbbbb") 1 (by decide)⟩

/-! The budget invariant of the paragraph pass. -/

theorem paraFold_inv (B : Nat) (paras : List (List Char)) :
    ∀ (l : List (List Char)), (∀ p ∈ l, p ∈ paras) →
      ∀ (res : List (List Char)) (cur : List Char),
        (∀ C ∈ res, count_tokens C ≤ B ∨ ∃ p ∈ paras, C = p ++ nl2) →
        (cur = [] ∨ count_tokens cur ≤ B ∨ ∃ p ∈ paras, cur = p ++ nl2) →
        (∀ C ∈ (l.foldl (paraStep B) (res, cur)).1,
            count_tokens C ≤ B ∨ ∃ p ∈ paras, C = p ++ nl2) ∧
          ((l.foldl (paraStep B) (res, cur)).2 = [] ∨
            count_tokens (l.foldl (paraStep B) (res, cur)).2 ≤ B ∨
            ∃ p ∈ paras, (l.foldl (paraStep B) (res, cur)).2 = p ++ nl2) := by
  intro l
  induction l with
  | nil => intro _ res cur hres hcur; exact ⟨hres, hcur⟩
  | cons q rest ih =>
      intro hl res cur hres hcur
      have hq : q ∈ paras := hl q (by simp)
      have hrest : ∀ p ∈ rest, p ∈ paras := fun p hp => hl p (by simp [hp])
      rw [List.foldl_cons]
      simp only [paraStep]
      split_ifs with hc
      · refine ih hrest (res ++ [cur]) (q ++ nl2) ?_ ?_
        · intro C hC
          rcases List.mem_append.mp hC with hC | hC
          · exact hres C hC
          · have hCcur : C = cur := by simpa using hC
            subst hCcur
            rcases hcur with hcur | hcur
            · exact absurd hcur hc.2
            · exact hcur
        · exact Or.inr (Or.inr ⟨q, hq, rfl⟩)
      · refine ih hrest res (cur ++ (q ++ nl2)) hres ?_
        rcases Decidable.em (cur = []) with hnil | hnil
        · subst hnil
          exact Or.inr (Or.inr ⟨q, hq, by simp⟩)
        · right
          left
          rcases Decidable.em (B < count_tokens (cur ++ (q ++ nl2))) with hlt | hlt
          · exact absurd ⟨hlt, hnil⟩ hc
          · omega

theorem chunk_text_pass2_mem (B : Nat) (c : List Char) :
    ∀ C ∈ chunk_text_pass2 B c,
      count_tokens C ≤ B ∨ ∃ p ∈ pySplitOn nl2 c, C = p ++ nl2 := by
  intro C hC
  have h := paraFold_inv B (pySplitOn nl2 c) (pySplitOn nl2 c) (fun p hp => hp) [] []
    (by simp) (Or.inl rfl)
  simp only [chunk_text_pass2] at hC
  split_ifs at hC with hcur
  · rcases List.mem_append.mp hC with hC | hC
    · exact h.1 C hC
    · have hCc : C = (List.foldl (paraStep B) ([], []) (pySplitOn nl2 c)).2 := by
        simpa using hC
      subst hCc
      rcases h.2 with h2 | h2 | h2
      · exact absurd h2 hcur
      · exact Or.inl h2
      · exact Or.inr h2
  · exact h.1 C hC

/-- C2 (amended): with the length-based fallback estimator, every chunk
returned by `chunk_text` is within the budget `B`, except chunks of the form
`P ++ "\n\n"` — a single paragraph of an over-budget first-pass chunk,
re-emitted with the blank line the paragraph pass appends — whose estimate
including that appended blank line exceeds `B`. (The original claim's
exception, requiring the bare paragraph's own estimate to exceed `B`, is too
narrow: the appended `"\n\n"` can push a within-budget paragraph over.) -/
theorem chunk_text_budget (T : List Char) (B : Nat) (_hB : 0 < B) :
    ∀ C ∈ chunk_text T B,
      count_tokens C ≤ B ∨
        ∃ c ∈ chunk_text_pass1 T B, B < count_tokens c ∧
          ∃ p ∈ pySplitOn nl2 c, C = p ++ nl2 ∧ B < count_tokens C := by
  intro C hC
  simp only [chunk_text] at hC
  rcases List.mem_flatMap.mp hC with ⟨c, hc, hCc⟩
  by_cases hover : B < count_tokens c
  · rw [if_pos hover] at hCc
    rcases chunk_text_pass2_mem B c C hCc with h | ⟨p, hp, hCp⟩
    · exact Or.inl h
    · rcases Decidable.em (count_tokens C ≤ B) with hle | hle
      · exact Or.inl hle
      · exact Or.inr ⟨c, hc, hover, p, hp, hCp, by omega⟩
  · rw [if_neg hover] at hCc
    have hCeq : C = c := by simpa using hCc
    subst hCeq
    exact Or.inl (by omega)

/-- Counterexample to C2 as stated: at `T = "aaaaaa\n\nbbbbbb"`, `B = 1`, the
chunk `"aaaaaa\n\n"` is returned, its estimate `2` exceeds the budget, yet
the single paragraph `"aaaaaa"` it consists of has estimate `1 ≤ B`, so the
claim's exception clause (paragraph's own estimate exceeds `B`) does not
cover it. -/
theorem chunk_text_budget_counterexample :
    chunk_text (str2list "aaaaaa\n\nbbbbbb") 1 =
        [str2list "aaaaaa\n\n", str2list "bbbbbb\n\n"] ∧
      count_tokens (str2list "aaaaaa\n\n") = 2 ∧
      count_tokens (str2list "aaaaaa") = 1 ∧
      pySplitOn nl2 (str2list "aaaaaa\n\nbbbbbb") = [str2list "aaaaaa", str2list "bbbbbb"] := by
  decide

/-- Witness for the amended C2 at the same concrete text and budget. -/
theorem chunk_text_budget_witness :
    0 < 1 ∧
      ∀ C ∈ chunk_text (str2list "aaaaaa\n\nbbbbbb") 1,
        count_tokens C ≤ 1 ∨
          ∃ c ∈ chunk_text_pass1 (str2list "aaaaaa\n\nbbbbbb") 1, 1 < count_tokens c ∧
            ∃ p ∈ pySplitOn nl2 c, C = p ++ nl2 ∧ 1 < count_tokens C :=
  ⟨by decide, chunk_text_budget (str2list "aaaaaa\n\nbbbbbb") 1 (by decide)⟩

/-! Claims about the token estimator, the section extractor and the router. -/

/-- C9 (amended): the fallback estimator is `len(text) // 4` — the floor, not
the ceiling, of `len(text) / 4` — characterized here by the division
inequalities; it is total (hence never raises) and `Nat`-valued (hence
non-negative). -/
theorem count_tokens_floor (t : List Char) :
    4 * count_tokens t ≤ t.length ∧ t.length < 4 * count_tokens t + 4 := by
  unfold count_tokens
  omega

/-- Counterexample to C9 as stated: on the one-character text `"a"` the
estimator returns `0`, while `ceil(1 / 4) = (1 + 3) / 4 = 1`. -/
theorem count_tokens_not_ceil :
    count_tokens (str2list "a") = 0 ∧ ((str2list "a").length + 3) / 4 = 1 := by decide

/-- C10: on the empty sections mapping the router returns the empty string,
whatever the keyword list — the non-empty-output guarantee needs a non-empty
mapping. -/
theorem route_empty_sections (keywords : List (List Char)) :
    extract_content_for_section [] keywords = [] := rfl

/-- C4 as evaluated on the code: the empty corpus yields an empty mapping —
not a mapping holding an implicit "general" key — and text before the first
heading ("preamble") is attributed to no section at all; moreover the stored
body is the captured newline, not the section text. The source's
`current_title = "General"` accumulator (line 644) is dead code. -/
theorem extract_semantic_sections_no_general :
    extract_semantic_sections (str2list "") = [] ∧
      extract_semantic_sections (str2list "preamble\n## Alpha\nbody") =
        [(str2list "alpha", str2list "\n")] := by decide

/-- C5 as evaluated on the code: for the corpus `"## A\nx\n## A\ny"` with a
duplicated title, extraction stores the whitespace body `"\n\n\n\n"` (the
section texts `x` and `y` are lost), and re-extracting the re-serialized
output yields body `"\n"` — the mapping is not reproduced. -/
theorem extract_reserialize_differs :
    extract_semantic_sections (str2list "## A\nx\n## A\ny") =
        [(str2list "a", str2list "\n\n\n\n")] ∧
      extract_semantic_sections
          (reserializeSections (extract_semantic_sections (str2list "## A\nx\n## A\ny"))) =
        [(str2list "a", str2list "\n")] := by decide

theorem secLabel_ne_nil (kv : List Char × List Char) : secLabel kv ≠ [] := by
  exact List.cons_ne_nil _ _

theorem joinSep_ne_nil (sep : List Char) :
    ∀ L : List (List Char), L ≠ [] → (∀ x ∈ L, x ≠ []) → joinSep sep L ≠ [] := by
  intro L
  match L with
  | [] => intro hL _; exact absurd rfl hL
  | [x] =>
      intro _ hall
      simpa [joinSep] using hall x (by simp)
  | x :: y :: xs =>
      intro _ hall
      have hx : x ≠ [] := hall x (by simp)
      simp only [joinSep]
      intro hc
      exact hx (List.append_eq_nil.mp (List.append_eq_nil.mp hc).1).1

theorem take_ne_nil (n : Nat) (l : List Char) (hn : 0 < n) (hl : l ≠ []) :
    l.take n ≠ [] := by
  cases l with
  | nil => exact absurd rfl hl
  | cons c t =>
      cases n with
      | zero => omega
      | succ m => simp

/-- C6: whenever the sections mapping is non-empty the router returns a
non-empty string for every keyword list; and when no section title matches
any keyword, the result is a prefix, of length at most 8000, of the
concatenation of all sections, each labeled with its own title as a
heading. -/
theorem route_nonempty (sections : List (List Char × List Char)) (keywords : List (List Char))
    (h : sections ≠ []) :
    extract_content_for_section sections keywords ≠ [] ∧
      ((∀ kv ∈ sections, ¬ titleMatch keywords kv.1) →
        extract_content_for_section sections keywords <+:
            joinSep nl2 (sections.map secLabel) ∧
          (extract_content_for_section sections keywords).length ≤ 8000) := by
  constructor
  · simp only [extract_content_for_section]
    have hlabels : ∀ x ∈ sections.map secLabel, x ≠ [] := by
      intro x hx
      rcases List.mem_map.mp hx with ⟨kv, _, rfl⟩
      exact secLabel_ne_nil kv
    split_ifs with hrel
    · have hmap : sections.map secLabel ≠ [] := by
        simp [h]
      exact take_ne_nil _ _ (by omega) (joinSep_ne_nil _ _ hmap hlabels)
    · have hne : (sections.filter (fun kv => titleMatch keywords kv.1)).map secLabel ≠ [] := by
        intro hc
        rw [hc] at hrel
        simp at hrel
      refine joinSep_ne_nil _ _ hne ?_
      intro x hx
      rcases List.mem_map.mp hx with ⟨kv, _, rfl⟩
      exact secLabel_ne_nil kv
  · intro hno
    have hfilter : sections.filter (fun kv => titleMatch keywords kv.1) = [] :=
      List.filter_eq_nil_iff.mpr (fun kv hkv => by simp [hno kv hkv])
    simp only [extract_content_for_section, hfilter, List.map_nil, List.isEmpty_nil, if_pos]
    exact ⟨List.take_prefix _ _, by simp [List.length_take_le]⟩

/-- Witness for C6 at a one-section mapping and a keyword matching no
title. -/
theorem route_nonempty_witness :
    ([(str2list "alpha", str2list "x")] : List (List Char × List Char)) ≠ [] ∧
      (extract_content_for_section [(str2list "alpha", str2list "x")] [str2list "zzz"] ≠ [] ∧
        ((∀ kv ∈ [(str2list "alpha", str2list "x")], ¬ titleMatch [str2list "zzz"] kv.1) →
          extract_content_for_section [(str2list "alpha", str2list "x")] [str2list "zzz"] <+:
              joinSep nl2 ([(str2list "alpha", str2list "x")].map secLabel) ∧
            (extract_content_for_section [(str2list "alpha", str2list "x")]
                [str2list "zzz"]).length ≤ 8000)) :=
  ⟨by decide, route_nonempty _ _ (by decide)⟩

/-! Facts about Python-style stripping. -/

theorem lstrip_cons_of_not_ws {c : Char} (t : List Char) (hc : isWs c = false) :
    lstrip (c :: t) = c :: t := by
  simp [lstrip, List.dropWhile_cons, hc]

theorem listStartsWith_append (p t : List Char) : listStartsWith p (p ++ t) = true := by
  induction p with
  | nil => rfl
  | cons c cs ih => simp [listStartsWith, ih]

theorem rstrip_append (a b : List Char) :
    rstrip (a ++ b) = if rstrip b = [] then rstrip a else a ++ rstrip b := by
  unfold rstrip
  rw [List.reverse_append, List.dropWhile_append]
  by_cases hb : List.dropWhile isWs b.reverse = []
  · rw [if_pos (by simp [hb]), if_pos (by simp [hb])]
  · rw [if_neg (by simp [hb]), if_neg (by simp [hb])]
    simp

theorem dropWhile_eq_self_of_prefix {p : Char → Bool} :
    ∀ {u v : List Char}, u.dropWhile p = u → v <+: u → v.dropWhile p = v := by
  intro u v hu hp
  cases v with
  | nil => rfl
  | cons c t =>
      obtain ⟨w, hw⟩ := hp
      have hcu : u = c :: (t ++ w) := by rw [← hw]; rfl
      subst hcu
      rw [List.dropWhile_cons] at hu
      split_ifs at hu with hpc
      · exfalso
        have hle := (List.dropWhile_suffix (l := t ++ w) p).length_le
        rw [hu] at hle
        simp at hle
      · rw [List.dropWhile_cons, if_neg hpc]

theorem rstrip_eq_self_of_suffix {u v : List Char} (hu : rstrip u = u) (hs : v <:+ u) :
    rstrip v = v := by
  have hu' : u.reverse.dropWhile isWs = u.reverse := by
    have := congrArg List.reverse hu
    rw [rstrip, List.reverse_reverse] at this
    exact this
  have hp : v.reverse <+: u.reverse := List.reverse_prefix.mpr hs
  have := dropWhile_eq_self_of_prefix hu' hp
  rw [rstrip, this, List.reverse_reverse]

theorem dropWhile_idem (p : Char → Bool) (l : List Char) :
    (l.dropWhile p).dropWhile p = l.dropWhile p := by
  induction l with
  | nil => rfl
  | cons c t ih =>
      rw [List.dropWhile_cons]
      split_ifs with hc
      · exact ih
      · rw [List.dropWhile_cons, if_neg hc]

theorem lstrip_idem (s : List Char) : lstrip (lstrip s) = lstrip s :=
  dropWhile_idem isWs s

theorem rstrip_idem (s : List Char) : rstrip (rstrip s) = rstrip s := by
  rw [rstrip, rstrip, List.reverse_reverse, dropWhile_idem]

theorem lstrip_pyStrip (x : List Char) : lstrip (pyStrip x) = pyStrip x := by
  rw [pyStrip, lstrip_idem]

theorem rstrip_pyStrip (x : List Char) : rstrip (pyStrip x) = pyStrip x := by
  refine rstrip_eq_self_of_suffix (rstrip_idem x) ?_
  rw [pyStrip, lstrip]
  exact List.dropWhile_suffix _

theorem pyStrip_idem (x : List Char) : pyStrip (pyStrip x) = pyStrip x := by
  rw [pyStrip, rstrip_pyStrip, lstrip_pyStrip]

theorem drop_leadingCount (p : Char → Bool) (s : List Char) :
    s.drop (leadingCount p s) = s.dropWhile p := by
  have h : s = s.takeWhile p ++ s.dropWhile p := (List.takeWhile_append_dropWhile ..).symm
  calc s.drop (leadingCount p s)
      = (s.takeWhile p ++ s.dropWhile p).drop (s.takeWhile p).length := by rw [← h]; rfl
    _ = s.dropWhile p := List.drop_left ..

theorem dropWhile_append_of_all {p : Char → Bool} :
    ∀ (a b : List Char), (∀ c ∈ a, p c = true) → (a ++ b).dropWhile p = b.dropWhile p := by
  intro a
  induction a with
  | nil => intro b _; rfl
  | cons c t ih =>
      intro b hall
      rw [List.cons_append, List.dropWhile_cons, if_pos (hall c (by simp))]
      exact ih b fun d hd => hall d (by simp [hd])

/-! The canonical heading and the restart behavior of `ensure_section_heading`. -/

theorem sectionMarks_cons {level : Nat} (hl : 1 ≤ level) :
    sectionMarks level = '#' :: List.replicate (level - 1) '#' := by
  obtain ⟨k, rfl⟩ : ∃ k, level = k + 1 := ⟨level - 1, by omega⟩
  simp [sectionMarks, List.replicate_succ]

theorem canonHeading_exists_cons {heading : List Char} {level : Nat} (hl : 1 ≤ level) :
    ∃ t, sectionMarks level ++ [' '] ++ heading = '#' :: t := by
  rw [sectionMarks_cons hl]
  exact ⟨_, rfl⟩

theorem rstrip_canonHeading {heading : List Char} (level : Nat) (hh : heading ≠ [])
    (hrh : rstrip heading = heading) :
    rstrip (sectionMarks level ++ [' '] ++ heading) = sectionMarks level ++ [' '] ++ heading := by
  rw [rstrip_append, if_neg (by rw [hrh]; exact hh), hrh]

theorem pyStrip_canonHeading_append {heading : List Char} {level : Nat} (v : List Char)
    (hl : 1 ≤ level) (hh : heading ≠ []) (hrh : rstrip heading = heading) :
    pyStrip (sectionMarks level ++ [' '] ++ heading ++ v) =
      sectionMarks level ++ [' '] ++ heading ++ rstrip v := by
  have h1 : rstrip (sectionMarks level ++ [' '] ++ heading ++ v) =
      sectionMarks level ++ [' '] ++ heading ++ rstrip v := by
    rw [rstrip_append]
    split_ifs with hv
    · rw [hv, List.append_nil, rstrip_canonHeading level hh hrh]
    · rfl
  rw [pyStrip, h1]
  obtain ⟨t, ht⟩ := @canonHeading_exists_cons heading level hl
  rw [ht, List.cons_append, lstrip_cons_of_not_ws _ (by decide), ← List.cons_append, ← ht]

theorem startsCanon_canonHeading_append {heading : List Char} {level : Nat} (w : List Char) :
    startsCanon (sectionMarks level ++ [' '] ++ heading ++ w) heading level = true := by
  simp only [startsCanon, listStartsWith_append, Bool.true_or]

theorem startsCanon_pyStrip_canonHeading_append {heading : List Char} {level : Nat}
    (v : List Char) (hl : 1 ≤ level) (hh : heading ≠ []) (hrh : rstrip heading = heading) :
    startsCanon (pyStrip (sectionMarks level ++ [' '] ++ heading ++ v)) heading level = true := by
  rw [pyStrip_canonHeading_append v hl hh hrh]
  exact startsCanon_canonHeading_append _

theorem ensureCore_of_canon {x heading : List Char} {level : Nat}
    (h : startsCanon x heading level = true) : ensureCore x heading level = x := by
  rw [ensureCore, if_pos h]

theorem ensureCore_double (s heading : List Char) (level : Nat)
    (hsr : rstrip s = s) (hsl : lstrip s = s)
    (hl : 1 ≤ level) (hh : heading ≠ []) (hrh : rstrip heading = heading) :
    ensureCore (pyStrip (ensureCore s heading level)) heading level =
      pyStrip (ensureCore s heading level) := by
  have hps : pyStrip s = s := by rw [pyStrip, hsr, hsl]
  have key : startsCanon (pyStrip (ensureCore s heading level)) heading level = true := by
    by_cases hc : startsCanon s heading level = true
    · rw [ensureCore_of_canon hc, hps]
      exact hc
    · rw [ensureCore, if_neg hc]
      by_cases hg : headGuard s = true
      · rw [if_pos hg, replaceFirstHeading]
        rw [List.append_assoc (sectionMarks level ++ [' '] ++ heading)]
        exact startsCanon_pyStrip_canonHeading_append _ hl hh hrh
      · rw [if_neg hg]
        rw [List.append_assoc (sectionMarks level ++ [' '] ++ heading)]
        exact startsCanon_pyStrip_canonHeading_append _ hl hh hrh
  exact ensureCore_of_canon key

/-- C7 (amended): a second application of `ensure_section_heading` returns
the stripped output of the first: `f (f x) = strip (f x)`. Hence `f` is
idempotent exactly on inputs whose first-application output carries no
surrounding whitespace; the literal idempotence claim fails, for example, on
empty content (see the counterexample), where the first application appends a
trailing blank line the second application strips. Stated for heading levels
of at least 1 and non-empty right-stripped headings, the domain the source
uses (levels 1–6, literal headings). -/
theorem ensure_section_heading_twice (content heading : List Char) (level : Nat)
    (hl : 1 ≤ level) (hh : heading ≠ []) (hrh : rstrip heading = heading) :
    ensure_section_heading (ensure_section_heading content heading level) heading level =
      pyStrip (ensure_section_heading content heading level) :=
  ensureCore_double (pyStrip content) heading level (rstrip_pyStrip content)
    (lstrip_pyStrip content) hl hh hrh

/-- Counterexample to C7 as stated: on empty content the first application
returns `"# H\n\n"` and the second returns `"# H"`, so applying the function
twice is not a no-op. -/
theorem ensure_section_heading_not_idempotent :
    ensure_section_heading (ensure_section_heading (str2list "") (str2list "H") 1)
        (str2list "H") 1 ≠
      ensure_section_heading (str2list "") (str2list "H") 1 := by decide

/-- Witness for the amended C7 at non-empty content. -/
theorem ensure_section_heading_twice_witness :
    (1 ≤ 1 ∧ str2list "H" ≠ [] ∧ rstrip (str2list "H") = str2list "H") ∧
      ensure_section_heading (ensure_section_heading (str2list "abc") (str2list "H") 1)
          (str2list "H") 1 =
        pyStrip (ensure_section_heading (str2list "abc") (str2list "H") 1) :=
  ⟨by decide, ensure_section_heading_twice (str2list "abc") (str2list "H") 1 (by decide)
    (by decide) (by decide)⟩

/-- C8 (amended): (i) content whose strip begins with the prefix
`"#"*level + " " + heading` is returned as the *stripped* content — the
"already canonical" test is a prefix test, and the result is unchanged only
up to surrounding whitespace; (ii) content whose strip begins with some other
heading line — provided the strip does not begin with any of the five
hard-coded prefixes, and the whitespace that follows the marker run stays on
the heading line (no newline in it) — has exactly its first line replaced by
the canonical heading: the result is the canonical heading, a newline, and
the stripped content's remainder after its first line. The literal claim
fails because of the four hard-coded alternate prefixes (see the
counterexample), the prefix-only canonical test, and the stripping. -/
theorem ensure_section_heading_replace (content heading : List Char) (level : Nat) :
    (listStartsWith (sectionMarks level ++ [' '] ++ heading) (pyStrip content) = true →
        ensure_section_heading content heading level = pyStrip content) ∧
      (startsCanon (pyStrip content) heading level = false →
        headGuard (pyStrip content) = true →
        '\n' ∉ ((pyStrip content).drop
            (leadingCount (fun c => c == '#') (pyStrip content))).takeWhile isWs →
        ensure_section_heading content heading level =
          sectionMarks level ++ [' '] ++ heading ++ ['\n'] ++
            dropFirstNl ((pyStrip content).dropWhile (fun c => c != '\n'))) := by
  constructor
  · intro h1
    show ensureCore (pyStrip content) heading level = pyStrip content
    refine ensureCore_of_canon ?_
    simp only [startsCanon]
    rw [h1]
    simp
  · intro hcan hg hnl
    show ensureCore (pyStrip content) heading level = _
    rw [drop_leadingCount] at hnl
    rw [ensureCore, if_neg (by simp [hcan]), if_pos hg, replaceFirstHeading]
    congr 1
    congr 1
    rw [drop_leadingCount, drop_leadingCount]
    have hall1 : ∀ c ∈ (pyStrip content).takeWhile (fun c => c == '#'),
        (fun c => c != '\n') c = true := by
      intro c hc
      have hc' : c = '#' := by
        have hb := List.mem_takeWhile_imp hc
        simpa using hb
      subst hc'
      decide
    have hall2 : ∀ c ∈ ((pyStrip content).dropWhile (fun c => c == '#')).takeWhile isWs,
        (fun c => c != '\n') c = true := by
      intro c hc
      have hcne : c ≠ '\n' := by
        intro hceq
        subst hceq
        exact hnl hc
      simpa using hcne
    have hstep1 : (pyStrip content).dropWhile (fun c => c != '\n') =
        ((pyStrip content).dropWhile (fun c => c == '#')).dropWhile (fun c => c != '\n') := by
      conv_lhs =>
        rw [← List.takeWhile_append_dropWhile (p := fun c => c == '#') (l := pyStrip content)]
      rw [dropWhile_append_of_all _ _ hall1]
    have hstep2 : ((pyStrip content).dropWhile (fun c => c == '#')).dropWhile
          (fun c => c != '\n') =
        (((pyStrip content).dropWhile (fun c => c == '#')).dropWhile isWs).dropWhile
          (fun c => c != '\n') := by
      conv_lhs =>
        rw [← List.takeWhile_append_dropWhile (p := isWs)
          (l := (pyStrip content).dropWhile (fun c => c == '#'))]
      rw [dropWhile_append_of_all _ _ hall2]
    rw [hstep1, hstep2]

/-- Counterexample to C8 as stated: content beginning with the heading line
`"# Executive Summary"` — not the canonical heading for `"Conclusion"` at
level 1 — is returned unchanged instead of having its first heading line
replaced, because of the hard-coded alternate prefix check of lines
699–702. -/
theorem ensure_section_heading_alternate_kept :
    ensure_section_heading (str2list "# Executive Summary\nSome body")
          (str2list "Conclusion") 1 =
        str2list "# Executive Summary\nSome body" ∧
      ensure_section_heading (str2list "# Executive Summary\nSome body")
          (str2list "Conclusion") 1 ≠
        str2list "# Conclusion\nSome body" := by decide

/-- Witness for the amended C8: the canonical-prefix branch at content
already carrying the canonical heading, and the replacement branch at content
carrying a different heading line. -/
theorem ensure_section_heading_replace_witness :
    (listStartsWith (sectionMarks 1 ++ [' '] ++ str2list "New")
          (pyStrip (str2list "# New\nBody")) = true ∧
        ensure_section_heading (str2list "# New\nBody") (str2list "New") 1 =
          pyStrip (str2list "# New\nBody")) ∧
      (startsCanon (pyStrip (str2list "## Old Title\nBody text")) (str2list "New") 1 = false ∧
        headGuard (pyStrip (str2list "## Old Title\nBody text")) = true ∧
        '\n' ∉ ((pyStrip (str2list "## Old Title\nBody text")).drop
            (leadingCount (fun c => c == '#')
              (pyStrip (str2list "## Old Title\nBody text")))).takeWhile isWs ∧
        ensure_section_heading (str2list "## Old Title\nBody text") (str2list "New") 1 =
          sectionMarks 1 ++ [' '] ++ str2list "New" ++ ['\n'] ++
            dropFirstNl ((pyStrip (str2list "## Old Title\nBody text")).dropWhile
              (fun c => c != '\n'))) :=
  ⟨⟨by decide, (ensure_section_heading_replace (str2list "# New\nBody") (str2list "New") 1).1
      (by decide)⟩,
    ⟨by decide, by decide, by decide,
      (ensure_section_heading_replace (str2list "## Old Title\nBody text")
          (str2list "New") 1).2 (by decide) (by decide) (by decide)⟩⟩

/-! Failure isolation in the report assembly. -/

theorem infix_joinSep (sep : List Char) :
    ∀ (L : List (List Char)) (a : List Char), a ∈ L → a <:+: joinSep sep L := by
  intro L
  induction L with
  | nil => intro a ha; simp at ha
  | cons x xs ih =>
      intro a ha
      cases xs with
      | nil =>
          have hax : a = x := by simpa using ha
          subst hax
          exact List.infix_refl _
      | cons y ys =>
          rcases List.mem_cons.mp ha with rfl | hmem
          · simp only [joinSep]
            rw [List.append_assoc]
            exact (List.prefix_append a _).isInfix
          · simp only [joinSep]
            exact (ih a hmem).trans (List.suffix_append _ _).isInfix

theorem maybeSection_ne {c : List Char} (hc : c ≠ []) (hd : List Char) :
    maybeSection c hd = [ensure_section_heading c hd 1] := by
  rw [maybeSection, if_neg hc]

theorem phasePlaceholder_fa_ne (e : List Char) :
    phasePlaceholder (str2list "Financial Analysis") e ≠ [] := by
  rw [show phasePlaceholder (str2list "Financial Analysis") e =
      '#' :: (str2list "# Financial Analysis\n\nError generating content: " ++ e) from rfl]
  exact List.cons_ne_nil _ _

theorem ensure_placeholder (e : List Char) (he : e ≠ []) (hre : rstrip e = e) :
    ensure_section_heading (phasePlaceholder (str2list "Financial Analysis") e)
        (str2list "Financial Analysis") 1 =
      str2list "# Financial Analysis\n\nError generating content: " ++ e := by
  have hpp : phasePlaceholder (str2list "Financial Analysis") e =
      str2list "## Financial Analysis\n\nError generating content: " ++ e := rfl
  have hstrip : pyStrip (phasePlaceholder (str2list "Financial Analysis") e) =
      phasePlaceholder (str2list "Financial Analysis") e := by
    rw [hpp, pyStrip, rstrip_append, if_neg (by rw [hre]; exact he), hre]
    rw [show str2list "## Financial Analysis\n\nError generating content: " ++ e =
        '#' :: (str2list "# Financial Analysis\n\nError generating content: " ++ e) from rfl]
    exact lstrip_cons_of_not_ws _ (by decide)
  show ensureCore (pyStrip (phasePlaceholder (str2list "Financial Analysis") e))
      (str2list "Financial Analysis") 1 = _
  rw [hstrip]
  rfl

/-- C3: when the Financial Analysis inference call fails with message `e` and
every other phase call succeeds with non-empty content, the assembled report
still contains every other phase's heading-normalized content, and contains a
Financial Analysis section consisting of the canonical heading followed by
the human-readable error message — the pipeline completes instead of
aborting. (Inference calls are external collaborators and enter the model as
`Except` values; the error message is taken non-empty with no trailing
whitespace, as `str(e)` of a raised exception is.) -/
theorem generate_report_isolates_failure
    (company dt masterName modelName cES cBO cCL cGP cRC cCO e : List Char)
    (hES : cES ≠ []) (hBO : cBO ≠ []) (hCL : cCL ≠ []) (hGP : cGP ≠ []) (hRC : cRC ≠ [])
    (hCO : cCO ≠ []) (he : e ≠ []) (hre : rstrip e = e) :
    (ensure_section_heading cES (str2list "Executive Summary") 1 <:+:
        scenarioCReport company dt masterName modelName cES cBO cCL cGP cRC cCO e) ∧
      (ensure_section_heading cBO (str2list "Business Overview") 1 <:+:
        scenarioCReport company dt masterName modelName cES cBO cCL cGP cRC cCO e) ∧
      (ensure_section_heading cCL (str2list "Competitive Landscape") 1 <:+:
        scenarioCReport company dt masterName modelName cES cBO cCL cGP cRC cCO e) ∧
      (ensure_section_heading cGP (str2list "Growth Prospects and Future Outlook") 1 <:+:
        scenarioCReport company dt masterName modelName cES cBO cCL cGP cRC cCO e) ∧
      (ensure_section_heading cRC (str2list "Risks and Challenges") 1 <:+:
        scenarioCReport company dt masterName modelName cES cBO cCL cGP cRC cCO e) ∧
      (ensure_section_heading cCO (str2list "Conclusion") 1 <:+:
        scenarioCReport company dt masterName modelName cES cBO cCL cGP cRC cCO e) ∧
      (str2list "# Financial Analysis\n\nError generating content: " ++ e <:+:
        scenarioCReport company dt masterName modelName cES cBO cCL cGP cRC cCO e) := by
  have hrw : scenarioCReport company dt masterName modelName cES cBO cCL cGP cRC cCO e =
      joinSep nl2
        ([str2list "# Equity Research Report: " ++ pyUpper company,
          str2list "Generated on: " ++ dt,
          str2list "Based on data from: " ++ masterName,
          str2list "\n---\n"]
         ++ [ensure_section_heading cES (str2list "Executive Summary") 1]
         ++ [ensure_section_heading cBO (str2list "Business Overview") 1]
         ++ [ensure_section_heading (phasePlaceholder (str2list "Financial Analysis") e)
              (str2list "Financial Analysis") 1]
         ++ [ensure_section_heading cCL (str2list "Competitive Landscape") 1]
         ++ [ensure_section_heading cGP (str2list "Growth Prospects and Future Outlook") 1]
         ++ [ensure_section_heading cRC (str2list "Risks and Challenges") 1]
         ++ [ensure_section_heading cCO (str2list "Conclusion") 1]
         ++ [str2list "\n---\n",
             str2list "## Report Metadata",
             str2list "- Company: " ++ company,
             str2list "- Generation Date: " ++ dt,
             str2list "- Master File: " ++ masterName,
             str2list "- LLM Model: " ++ modelName]) := by
    simp only [scenarioCReport, generate_report_core, phaseComponent]
    rw [maybeSection_ne hES, maybeSection_ne hBO, maybeSection_ne (phasePlaceholder_fa_ne e),
      maybeSection_ne hCL, maybeSection_ne hGP, maybeSection_ne hRC, maybeSection_ne hCO]
  rw [hrw]
  refine ⟨?_, ?_, ?_, ?_, ?_, ?_, ?_⟩
  · exact infix_joinSep _ _ _ (by simp)
  · exact infix_joinSep _ _ _ (by simp)
  · exact infix_joinSep _ _ _ (by simp)
  · exact infix_joinSep _ _ _ (by simp)
  · exact infix_joinSep _ _ _ (by simp)
  · exact infix_joinSep _ _ _ (by simp)
  · rw [← ensure_placeholder e he hre]
    exact infix_joinSep _ _ _ (by simp)

/-- Witness for C3 at concrete phase contents and error message. -/
theorem generate_report_isolates_failure_witness :
    (str2list "x" ≠ [] ∧ str2list "boom" ≠ [] ∧ rstrip (str2list "boom") = str2list "boom") ∧
      ((ensure_section_heading (str2list "x") (str2list "Executive Summary") 1 <:+:
          scenarioCReport (str2list "a") (str2list "d") (str2list "m") (str2list "g")
            (str2list "x") (str2list "x") (str2list "x") (str2list "x") (str2list "x")
            (str2list "x") (str2list "boom")) ∧
        (ensure_section_heading (str2list "x") (str2list "Business Overview") 1 <:+:
          scenarioCReport (str2list "a") (str2list "d") (str2list "m") (str2list "g")
            (str2list "x") (str2list "x") (str2list "x") (str2list "x") (str2list "x")
            (str2list "x") (str2list "boom")) ∧
        (ensure_section_heading (str2list "x") (str2list "Competitive Landscape") 1 <:+:
          scenarioCReport (str2list "a") (str2list "d") (str2list "m") (str2list "g")
            (str2list "x") (str2list "x") (str2list "x") (str2list "x") (str2list "x")
            (str2list "x") (str2list "boom")) ∧
        (ensure_section_heading (str2list "x")
            (str2list "Growth Prospects and Future Outlook") 1 <:+:
          scenarioCReport (str2list "a") (str2list "d") (str2list "m") (str2list "g")
            (str2list "x") (str2list "x") (str2list "x") (str2list "x") (str2list "x")
            (str2list "x") (str2list "boom")) ∧
        (ensure_section_heading (str2list "x") (str2list "Risks and Challenges") 1 <:+:
          scenarioCReport (str2list "a") (str2list "d") (str2list "m") (str2list "g")
            (str2list "x") (str2list "x") (str2list "x") (str2list "x") (str2list "x")
            (str2list "x") (str2list "boom")) ∧
        (ensure_section_heading (str2list "x") (str2list "Conclusion") 1 <:+:
          scenarioCReport (str2list "a") (str2list "d") (str2list "m") (str2list "g")
            (str2list "x") (str2list "x") (str2list "x") (str2list "x") (str2list "x")
            (str2list "x") (str2list "boom")) ∧
        (str2list "# Financial Analysis\n\nError generating content: " ++ str2list "boom" <:+:
          scenarioCReport (str2list "a") (str2list "d") (str2list "m") (str2list "g")
            (str2list "x") (str2list "x") (str2list "x") (str2list "x") (str2list "x")
            (str2list "x") (str2list "boom"))) :=
  ⟨by decide,
    generate_report_isolates_failure (str2list "a") (str2list "d") (str2list "m")
      (str2list "g") (str2list "x") (str2list "x") (str2list "x") (str2list "x")
      (str2list "x") (str2list "x") (str2list "boom") (by decide) (by decide) (by decide)
      (by decide) (by decide) (by decide) (by decide) (by decide)⟩

end ReportGen
